import Mathlib

/-!
Verification development for the distributed (threshold-signing) wallet.

The Go sources are shallowly embedded: byte strings become lists of
naturals, Go maps become association lists, the injected Store and
Encryptor capabilities become explicit structures of functions, and
stateful methods become functions that return the updated state together
with the Go error value.  The BLS primitives (key parsing, public-key
derivation, signing) and the keystore encryptor are external
collaborators of the repository; they are modelled as parameters
(structures of functions), with keys identified with their marshalled
byte serialisations.
-/

set_option autoImplicit false

namespace DistributedWallet

/-- Byte strings.  Each element is intended to be below 256. -/
abbrev Bytes := List Nat

/-! ## Decimal codec

Models fmt.Sprintf with the d verb and strconv.ParseUint base 10, used
for participant identifiers in the account and batch wire formats. -/

/-- Little-endian base-10 digits, with explicit fuel so that the
recursion is structural (and hence evaluates inside the kernel). -/
def natDigitsF : Nat → Nat → List Nat
  | _, 0 => []
  | 0, _ + 1 => []
  | f + 1, n + 1 => (n + 1) % 10 :: natDigitsF f ((n + 1) / 10)

/-- Little-endian base-10 digits of a natural number; empty for 0. -/
def natDigits (n : Nat) : List Nat := natDigitsF n n

theorem natDigitsF_eq (n : Nat) : ∀ f, n ≤ f → natDigitsF f n = natDigitsF n n := by
  induction n using Nat.strong_induction_on with
  | _ n ih =>
    match n with
    | 0 => intro f _; match f with | 0 => rfl | _ + 1 => rfl
    | m + 1 =>
      intro f hf
      match f, hf with
      | g + 1, hf =>
        have hq : (m + 1) / 10 < m + 1 := Nat.div_lt_self (Nat.succ_pos _) (by norm_num)
        rw [natDigitsF, natDigitsF]
        rw [ih ((m + 1) / 10) hq g (by omega), ih ((m + 1) / 10) hq m (by omega)]

theorem natDigits_succ (m : Nat) :
    natDigits (m + 1) = (m + 1) % 10 :: natDigits ((m + 1) / 10) := by
  have hq : (m + 1) / 10 < m + 1 := Nat.div_lt_self (Nat.succ_pos _) (by norm_num)
  show natDigitsF (m + 1) (m + 1) = _
  rw [natDigitsF, natDigitsF_eq ((m + 1) / 10) m (by omega)]
  rfl

/-- Value of a little-endian digit list. -/
def ofDigits : List Nat → Nat
  | [] => 0
  | d :: ds => d + 10 * ofDigits ds

theorem ofDigits_natDigits (n : Nat) : ofDigits (natDigits n) = n := by
  induction n using Nat.strong_induction_on with
  | _ n ih =>
    match n with
    | 0 => simp [natDigits, natDigitsF, ofDigits]
    | m + 1 =>
      rw [natDigits_succ, ofDigits,
        ih ((m + 1) / 10) (Nat.div_lt_self (Nat.succ_pos _) (by norm_num))]
      exact Nat.mod_add_div (m + 1) 10

theorem natDigits_lt (n : Nat) : ∀ d ∈ natDigits n, d < 10 := by
  induction n using Nat.strong_induction_on with
  | _ n ih =>
    match n with
    | 0 => intro d hd; simp [natDigits, natDigitsF] at hd
    | m + 1 =>
      intro d hd
      rw [natDigits_succ] at hd
      rcases List.mem_cons.mp hd with h | h
      · subst h; exact Nat.mod_lt _ (by norm_num)
      · exact ih ((m + 1) / 10) (Nat.div_lt_self (Nat.succ_pos _) (by norm_num)) d h

/-- The character for a single decimal digit. -/
def digitChar (n : Nat) : Char := Char.ofNat (48 + n)

/-- The digit value of a decimal character, if any. -/
def charDigit (c : Char) : Option Nat :=
  if 48 ≤ c.toNat ∧ c.toNat ≤ 57 then some (c.toNat - 48) else none

theorem charDigit_digitChar : ∀ d, d < 10 → charDigit (digitChar d) = some d := by decide

/-- Renders a natural number the way fmt.Sprintf with the d verb does. -/
def natToString (n : Nat) : String :=
  if n = 0 then "0" else String.mk ((natDigits n).reverse.map digitChar)

/-- Parses a list of decimal characters into big-endian digit values. -/
def parseDigits : List Char → Option (List Nat)
  | [] => some []
  | c :: cs =>
    match charDigit c, parseDigits cs with
    | some d, some ds => some (d :: ds)
    | _, _ => none

/-- Models strconv.ParseUint with base 10: a non-empty all-digit string. -/
def parseUint (s : String) : Option Nat :=
  if s.data.isEmpty then none
  else (parseDigits s.data).map (fun ds => ofDigits ds.reverse)

theorem parseDigits_map_digitChar (ds : List Nat) (h : ∀ d ∈ ds, d < 10) :
    parseDigits (ds.map digitChar) = some ds := by
  induction ds with
  | nil => rfl
  | cons d ds ih =>
    have hd : d < 10 := h d (List.mem_cons_self d ds)
    have hds : ∀ x ∈ ds, x < 10 := fun x hx => h x (List.mem_cons_of_mem d hx)
    simp [parseDigits, charDigit_digitChar d hd, ih hds]

theorem parseUint_natToString (n : Nat) : parseUint (natToString n) = some n := by
  by_cases h0 : n = 0
  · subst h0; decide
  · rw [natToString, if_neg h0]
    have hne : natDigits n ≠ [] := by
      match n, h0 with
      | m + 1, _ => rw [natDigits_succ]; exact List.cons_ne_nil _ _
    have hlt : ∀ d ∈ (natDigits n).reverse, d < 10 :=
      fun d hd => natDigits_lt n d (List.mem_reverse.mp hd)
    rw [parseUint]
    have hdata : (String.mk ((natDigits n).reverse.map digitChar)).data
        = (natDigits n).reverse.map digitChar := rfl
    rw [hdata, parseDigits_map_digitChar _ hlt]
    simp [List.isEmpty_iff, hne, List.reverse_reverse, ofDigits_natDigits]

/-! ## Hex codec

Models fmt.Sprintf with the x verb on byte slices and
hex.DecodeString combined with strings.TrimPrefix of the 0x marker. -/

/-- Lowercase hex character of a nibble. -/
def nibbleChar (n : Nat) : Char :=
  if n < 10 then Char.ofNat (48 + n) else Char.ofNat (87 + n)

/-- Nibble value of a hex character (upper or lower case accepted). -/
def nibbleVal (c : Char) : Option Nat :=
  if 48 ≤ c.toNat ∧ c.toNat ≤ 57 then some (c.toNat - 48)
  else if 97 ≤ c.toNat ∧ c.toNat ≤ 102 then some (c.toNat - 87)
  else if 65 ≤ c.toNat ∧ c.toNat ≤ 70 then some (c.toNat - 55)
  else none

theorem nibbleVal_nibbleChar : ∀ n, n < 16 → nibbleVal (nibbleChar n) = some n := by decide

theorem nibbleChar_ne_x : ∀ n, n < 16 → nibbleChar n ≠ 'x' := by decide

/-- Two lowercase hex characters per byte. -/
def hexChars : Bytes → List Char
  | [] => []
  | b :: bs => nibbleChar (b / 16 % 16) :: nibbleChar (b % 16) :: hexChars bs

/-- Models fmt.Sprintf with the x verb on a byte slice. -/
def hexEncode (b : Bytes) : String := String.mk (hexChars b)

/-- Hex pairs to bytes; odd-length input fails as in encoding/hex. -/
def hexPairs : List Char → Option Bytes
  | [] => some []
  | [_] => none
  | c1 :: c2 :: cs =>
    match nibbleVal c1, nibbleVal c2, hexPairs cs with
    | some h, some l, some bs => some ((16 * h + l) :: bs)
    | _, _, _ => none

/-- Models strings.TrimPrefix with the 0x marker. -/
def trimPrefix0x (cs : List Char) : List Char :=
  match cs with
  | c1 :: c2 :: rest => if c1 = '0' ∧ c2 = 'x' then rest else cs
  | _ => cs

/-- Models hex.DecodeString(strings.TrimPrefix(s, 0x)). -/
def hexDecodeString (s : String) : Option Bytes := hexPairs (trimPrefix0x s.data)

theorem hexPairs_hexChars (bs : Bytes) (h : ∀ b ∈ bs, b < 256) :
    hexPairs (hexChars bs) = some bs := by
  induction bs with
  | nil => rfl
  | cons b bs ih =>
    have hb : b < 256 := h b (List.mem_cons_self b bs)
    have hbs : ∀ x ∈ bs, x < 256 := fun x hx => h x (List.mem_cons_of_mem b hx)
    have h1 : b / 16 % 16 < 16 := Nat.mod_lt _ (by norm_num)
    have h2 : b % 16 < 16 := Nat.mod_lt _ (by norm_num)
    rw [hexChars, hexPairs]
    rw [nibbleVal_nibbleChar _ h1, nibbleVal_nibbleChar _ h2, ih hbs]
    show some ((16 * (b / 16 % 16) + b % 16) :: bs) = some (b :: bs)
    have hb16 : 16 * (b / 16 % 16) + b % 16 = b := by omega
    rw [hb16]

theorem trimPrefix0x_hexChars (bs : Bytes) : trimPrefix0x (hexChars bs) = hexChars bs := by
  match bs with
  | [] => rfl
  | b :: bs =>
    rw [hexChars, trimPrefix0x]
    have h2 : b % 16 < 16 := Nat.mod_lt _ (by norm_num)
    rw [if_neg]
    intro ⟨_, hx⟩
    exact nibbleChar_ne_x _ h2 hx

theorem hexDecode_hexEncode (bs : Bytes) (h : ∀ b ∈ bs, b < 256) :
    hexDecodeString (hexEncode bs) = some bs := by
  rw [hexDecodeString, hexEncode]
  have hdata : (String.mk (hexChars bs)).data = hexChars bs := rfl
  rw [hdata, trimPrefix0x_hexChars, hexPairs_hexChars bs h]

/-! ## Structured documents

Go deserialises records into map-of-string-to-any values; the JSON value
type below is that universe.  Numbers carry the parsed numeric value (Go
parses JSON numbers into float64; the claims only involve values that
float64 represents exactly, so a rational carrier is faithful there). -/

inductive Json where
  | null
  | bool (b : Bool)
  | num (q : ℚ)
  | str (s : String)
  | arr (xs : List Json)
  | obj (fields : List (String × Json))

/-- Lookup of a key in a deserialised JSON object (a Go map index). -/
def jsonLookup (fields : List (String × Json)) (key : String) : Option Json :=
  match fields with
  | [] => none
  | (k, v) :: rest => if k = key then some v else jsonLookup rest key

/-- Models the Go conversion of a float64 to an unsigned integer
(truncation toward zero); faithful for non-negative values, which are
the only ones the Go spec defines the conversion for. -/
def ratToUint (q : ℚ) : Nat := q.num.toNat / q.den

theorem ratToUint_natCast (n : Nat) : ratToUint (n : ℚ) = n := by
  simp [ratToUint, Rat.num_natCast, Rat.den_natCast]

/-- The opaque record produced by the Encryptor: in the source it is a
map of string to any, carried verbatim through storage and
serialisation. -/
abbrev Crypto := List (String × Json)

/-- The injected Encryptor capability (keystorev4 in production).
Decryption takes the stored record as an Option because the Go code can
pass a nil map (a batch-materialised account has no crypto record). -/
structure Encryptor where
  encrypt : Bytes → String → Option Crypto
  decrypt : Option Crypto → String → Option Bytes
  name : String
  version : Nat

/-- The external BLS primitives (e2types).  Keys are identified with
their marshalled byte serialisations, so Marshal is the identity. -/
structure BLS where
  privFromBytes : Bytes → Option Bytes
  pubFromBytes : Bytes → Option Bytes
  pubOfPriv : Bytes → Bytes
  sign : Bytes → Bytes → Bytes

/-! ## Account -/

/-- The account state (account.go).  The wallet back-reference, the
encryptor object and the mutex are not part of the functional state;
the encryptor and BLS scheme are passed to the operations instead.
participants is the Go map of uint64 to string as an association
list. -/
structure Account where
  id : String
  name : String
  verificationVector : List Bytes
  signingThreshold : Nat
  participants : List (Nat × String)
  crypto : Option Crypto
  secretKey : Option Bytes
  publicKey : Bytes
  version : Nat

/-- account.Unlock (account.go lines 309-332).  Returns the new account
state and the Go error value; an error leaves the state unchanged, as
the Go method returns before assigning the secret key. -/
def Account.unlock (B : BLS) (E : Encryptor) (a : Account) (passphrase : String) :
    Account × Option String :=
  if a.secretKey.isSome then (a, none)
  else
    match E.decrypt a.crypto passphrase with
    | none => (a, some "incorrect passphrase")
    | some secretBytes =>
      match B.privFromBytes secretBytes with
      | none => (a, some "failed to obtain BLS private key")
      | some secretKey =>
        if B.pubOfPriv secretKey = a.publicKey then
          ({ a with secretKey := some secretKey }, none)
        else (a, some "secret key does not correspond to public key")

/-- account.Lock: unconditionally clears the secret key. -/
def Account.lock (a : Account) : Account := { a with secretKey := none }

/-- account.Sign: fails when the account is locked. -/
def Account.signData (B : BLS) (a : Account) (data : Bytes) : Except String Bytes :=
  match a.secretKey with
  | none => .error "cannot sign when account is locked"
  | some sk => .ok (B.sign sk data)

/-- account.PrivateKey: fails when the account is locked. -/
def Account.privateKey (a : Account) : Except String Bytes :=
  match a.secretKey with
  | none => .error "cannot provide private key when account is locked"
  | some sk => .ok sk

/-! ## Account serialisation (account.go MarshalJSON / UnmarshalJSON) -/

/-- Models the fmt q verb for the simple names used here (surrounding
double quotes; escaping of special characters is not modelled as no
claim involves such a name). -/
def goQuote (s : String) : String := "\"" ++ s ++ "\""

/-- Models strings.HasPrefix(s, underscore): the reserved-name check. -/
def startsWithUnderscore (s : String) : Bool :=
  match s.data with
  | c :: _ => c = '_'
  | [] => false

/-- account.MarshalJSON.  The Go code builds a map of string to any and
marshals it; the field set below is that map.  A nil crypto map
marshals to null. -/
def Account.marshalJSON (a : Account) (encryptorName : String) : Json :=
  .obj [("uuid", .str a.id),
        ("name", .str a.name),
        ("pubkey", .str (hexEncode a.publicKey)),
        ("verificationvector", .arr (a.verificationVector.map (fun v => .str (hexEncode v)))),
        ("signing_threshold", .num (a.signingThreshold : ℚ)),
        ("participants", .obj (a.participants.map (fun kv => (natToString kv.1, .str kv.2)))),
        ("crypto", match a.crypto with | some c => .obj c | none => .null),
        ("encryptor", .str encryptorName),
        ("version", .num (a.version : ℚ))]

/-- The per-element loop over the verificationvector array in
account.UnmarshalJSON: each element must be a string, is hex-decoded,
and is parsed as a BLS public key. -/
def parseVerificationVector (B : BLS) (i : Nat) : List Json → Except String (List Bytes)
  | [] => .ok []
  | .str s :: rest =>
    match hexDecodeString s with
    | none => .error ("failed to decode verification vector element " ++ natToString i)
    | some bytes =>
      match B.pubFromBytes bytes with
      | none => .error ("failed to obtain BLS public key for verification fector element "
          ++ natToString i)
      | some key =>
        match parseVerificationVector B (i + 1) rest with
        | .error e => .error e
        | .ok keys => .ok (key :: keys)
  | _ :: _ => .error "account verification vector does not contain strings"

/-- The loop over the participants object in account.UnmarshalJSON:
each key is parsed with strconv.ParseUint and each value must be a
string. -/
def parseParticipants : List (String × Json) → Except String (List (Nat × String))
  | [] => .ok []
  | (k, v) :: rest =>
    match parseUint k with
    | none => .error "account participant ID invalid"
    | some id =>
      match v with
      | .str s =>
        match parseParticipants rest with
        | .error e => .error e
        | .ok others => .ok ((id, s) :: others)
      | _ => .error "account participant value invalid"

/-- account.UnmarshalJSON (account.go lines 93-222), field by field in
source order.  uuid.Parse is an external library and is modelled as
accepting the canonical string form (no claim depends on its failure
modes).  The final step mirrors the keystore version gate: only
version 4 selects an encryptor. -/
def Account.unmarshalJSON (B : BLS) (j : Json) : Except String Account := do
  let v ← match j with
    | .obj v => Except.ok v
    | _ => Except.error "failed to unmarshal account"
  let id ← match jsonLookup v "uuid" with
    | none => Except.error "account ID missing"
    | some (.str s) => Except.ok s
    | some _ => Except.error "account ID invalid"
  let name ← match jsonLookup v "name" with
    | none => Except.error "account name missing"
    | some (.str s) => Except.ok s
    | some _ => Except.error "account name invalid"
  let pubkeyStr ← match jsonLookup v "pubkey" with
    | none => Except.error "account pubkey missing"
    | some (.str s) => Except.ok s
    | some _ => Except.error "account pubkey invalid"
  let pubkeyBytes ← match hexDecodeString pubkeyStr with
    | none => Except.error "failed to decode public key"
    | some b => Except.ok b
  let publicKey ← match B.pubFromBytes pubkeyBytes with
    | none => Except.error "failed to obtain BLS public key"
    | some k => Except.ok k
  let vvJson ← match jsonLookup v "verificationvector" with
    | none => Except.error "account verificationvector missing"
    | some (.arr xs) => Except.ok xs
    | some _ => Except.error "account verificationvector invalid"
  let verificationVector ← parseVerificationVector B 0 vvJson
  let partJson ← match jsonLookup v "participants" with
    | none => Except.error "participants missing"
    | some (.obj fields) => Except.ok fields
    | some _ => Except.error "account participants invalid"
  let participants ← parseParticipants partJson
  let stq ← match jsonLookup v "signing_threshold" with
    | none => Except.error "account signing threshold missing"
    | some (.num q) => Except.ok q
    | some _ => Except.error "account signing threshold invalid"
  let signingThreshold := ratToUint stq
  if signingThreshold ≤ participants.length / 2 then
    Except.error "account signing threshold too low"
  else do
  let crypto ← match jsonLookup v "crypto" with
    | none => Except.error "account crypto missing"
    | some (.obj c) => Except.ok c
    | some _ => Except.error "account crypto invalid"
  let verq ← match jsonLookup v "version" with
    | none => Except.error "account version missing"
    | some (.num q) => Except.ok q
    | some _ => Except.error "account version invalid"
  let version := ratToUint verq
  if version = 4 then
    Except.ok (Account.mk id name verificationVector signingThreshold participants
      (some crypto) none publicKey version)
  else
    Except.error "unsupported keystore version"

/-! ## Index, batch and store -/

/-- The go-indexer index for one wallet: (accountID, accountName)
pairs.  Add appends an entry; Remove drops the entries matching both
the ID and the name; ID resolves a name to the first matching entry.
go-indexer is an external collaborator; these are its contracts. -/
abbrev Index := List (String × String)

def indexAdd (ix : Index) (id name : String) : Index := ix ++ [(id, name)]

def indexRemove (ix : Index) (id name : String) : Index :=
  ix.filter (fun e => !(e.1 == id && e.2 == name))

def indexID (ix : Index) (name : String) : Option String :=
  (ix.find? (fun e => e.2 == name)).map Prod.fst

/-- One entry of the batch artifact (public data only; participant keys
are kept in their decimal wire form). -/
structure BatchEntry where
  id : String
  name : String
  verificationVector : List Bytes
  signingThreshold : Nat
  participants : List (String × String)
  pubkey : Bytes

/-- The batch artifact: entries plus a single ciphertext record. -/
structure Batch where
  entries : List BatchEntry
  crypto : Option Crypto

/-- The injected Store capability.  Account records are keyed by
account ID; the serialized index and the batch record are modelled
structurally (their codecs are external to the claims).  The fail flags
inject backend write failures, standing for an arbitrary failing
store. -/
structure Store where
  accounts : List (String × Json)
  accountsIndex : Option Index
  batch : Option Batch
  isBatchRetriever : Bool
  isBatchStorer : Bool
  failStoreIndex : Bool
  failStoreAccount : Bool
  failStoreBatch : Bool

/-- The in-memory wallet state (the wallet struct minus the injected
collaborators, which are passed to the operations). -/
structure Wallet where
  id : String
  name : String
  version : Nat
  unlocked : Bool
  index : Index
  batch : Option Batch
  accounts : List (String × Account)
  batchDecrypted : Bool

/-- Go map lookup on an association list keyed by account ID. -/
def lookupAccount : List (String × Account) → String → Option Account
  | [], _ => none
  | e :: rest, id => if e.1 = id then some e.2 else lookupAccount rest id

/-- Go map assignment: replace an existing binding or append a new one. -/
def insertAccount : List (String × Account) → String → Account → List (String × Account)
  | [], id, a => [(id, a)]
  | e :: rest, id, a =>
    if e.1 = id then (id, a) :: rest else e :: insertAccount rest id a

def lookupRecord : List (String × Json) → String → Option Json
  | [], _ => none
  | e :: rest, id => if e.1 = id then some e.2 else lookupRecord rest id

def insertRecord : List (String × Json) → String → Json → List (String × Json)
  | [], id, j => [(id, j)]
  | e :: rest, id, j =>
    if e.1 = id then (id, j) :: rest else e :: insertRecord rest id j

def exceptToOption {α : Type} : Except String α → Option α
  | .ok a => some a
  | .error _ => none

/-! ## Batch retrieval and decryption (the batch source file) -/

/-- Parses each verification-vector entry as a BLS public key. -/
def parseVVKeys (B : BLS) : List Bytes → Option (List Bytes)
  | [] => some []
  | v :: rest =>
    match B.pubFromBytes v with
    | none => none
    | some k =>
      match parseVVKeys B rest with
      | none => none
      | some ks => some (k :: ks)

/-- Parses decimal-string participant keys with strconv.ParseUint. -/
def parsePartStrings : List (String × String) → Option (List (Nat × String))
  | [] => some []
  | (k, v) :: rest =>
    match parseUint k with
    | none => none
    | some id =>
      match parsePartStrings rest with
      | none => none
      | some others => some ((id, v) :: others)

/-- The per-entry loop of wallet.retrieveAccountsBatch: parse the
public key, the verification vector and the participant IDs of each
entry and materialise a locked account with no crypto record (the
secret is in the batch) and the wallet schema version. -/
def materializeEntries (B : BLS) (w : Wallet) : List BatchEntry → Wallet × Option String
  | [] => (w, none)
  | e :: rest =>
    match B.pubFromBytes e.pubkey with
    | none => (w, some "invalid public key")
    | some publicKey =>
      match parseVVKeys B e.verificationVector with
      | none => (w, some "invalid verification vector")
      | some vv =>
        match parsePartStrings e.participants with
        | none => (w, some "invalid participant ID")
        | some parts =>
          let a : Account := Account.mk e.id e.name vv e.signingThreshold parts
            none none publicKey 1
          materializeEntries B
            { w with accounts := insertAccount w.accounts e.id a } rest

/-- wallet.retrieveAccountsBatch: place a marker batch first (a failed
attempt is sticky), require the batch-retriever capability, fetch and
keep the batch, then materialise an account per entry.  The batch wire
codec is a faithful pair external to the claims and is modelled as the
identity on the structural batch. -/
def Wallet.retrieveAccountsBatch (B : BLS) (w : Wallet) (store : Store) :
    Wallet × Option String :=
  if w.batch.isSome then (w, none)
  else
    let w1 := { w with batch := some (Batch.mk [] none) }
    if !store.isBatchRetriever then (w1, some "not a batch retriever")
    else
      match store.batch with
      | none => (w1, some "failed to retrieve batch")
      | some res => materializeEntries B { w1 with batch := some res } res.entries

/-- wallet.retrieveBatchIfRequired: fetch the batch once per wallet
instance, and only when the store supports it. -/
def Wallet.retrieveBatchIfRequired (B : BLS) (w : Wallet) (store : Store) :
    Wallet × Option String :=
  if w.batch.isNone && store.isBatchRetriever then
    Wallet.retrieveAccountsBatch B w store
  else (w, none)

/-- The condition the wallet uses to serve data from the batch: a batch
was retrieved and it has entries. -/
def Wallet.batchUsable (w : Wallet) : Bool :=
  match w.batch with
  | some b => !b.entries.isEmpty
  | none => false

/-- The Go slice expression secretBytes[i*32:(i+1)*32]: the per-entry
secret-key slice of the decrypted batch plaintext. -/
def sliceSecret (secretBytes : Bytes) (i : Nat) : Bytes :=
  (secretBytes.drop (i * 32)).take 32

/-- The per-entry loop of wallet.batchDecrypt: skip entries whose
account already holds a key, parse the 32-byte slice, check it against
the stored public key, and install it.  (Where the Go code would
dereference a missing map entry and panic, the model returns an error;
no claim reaches that state.) -/
def batchDecryptEntries (B : BLS) (entries : List BatchEntry) (i : Nat)
    (secretBytes : Bytes) (accounts : List (String × Account)) :
    List (String × Account) × Option String :=
  match entries with
  | [] => (accounts, none)
  | e :: rest =>
    match lookupAccount accounts e.id with
    | none => (accounts, some "account missing from batch state")
    | some acct =>
      if acct.secretKey.isSome then
        batchDecryptEntries B rest (i + 1) secretBytes accounts
      else
        match B.privFromBytes (sliceSecret secretBytes i) with
        | none => (accounts, some "invalid private key")
        | some secretKey =>
          if B.pubOfPriv secretKey = acct.publicKey then
            batchDecryptEntries B rest (i + 1) secretBytes
              (insertAccount accounts e.id { acct with secretKey := some secretKey })
          else (accounts, some "secret key does not correspond to public key")

/-- wallet.batchDecrypt (batch source lines 187-223): decrypt the whole
batch ciphertext once, split it into 32-byte slices in entry order,
validate each against its entry account and install the keys;
memoised through batchDecrypted. -/
def Wallet.batchDecrypt (B : BLS) (E : Encryptor) (w : Wallet) (passphrase : String) :
    Wallet × Option String :=
  if w.batchDecrypted then (w, none)
  else
    match w.batch with
    | none => (w, some "no batch to decrypt")
    | some b =>
      match b.crypto with
      | none => (w, some "no batch to decrypt")
      | some crypto =>
        match E.decrypt (some crypto) passphrase with
        | none => (w, some "failed to decrypt data")
        | some secretBytes =>
          match batchDecryptEntries B b.entries 0 secretBytes w.accounts with
          | (accounts1, some e) => ({ w with accounts := accounts1 }, some e)
          | (accounts1, none) =>
            ({ w with accounts := accounts1, batchDecrypted := true }, none)

/-! ## Wallet operations (the wallet source file) -/

/-- wallet.Accounts: after the lazy batch fetch, serve the pre-loaded
accounts when a non-empty batch is present, otherwise fetch every
record from the store and silently skip the ones that fail to
deserialise. -/
def Wallet.accountsList (B : BLS) (w : Wallet) (store : Store) :
    Wallet × List Account :=
  let w1 := (Wallet.retrieveBatchIfRequired B w store).1
  if w1.batchUsable then (w1, w1.accounts.map Prod.snd)
  else
    (w1, (store.accounts.map Prod.snd).filterMap
      (fun data => exceptToOption (Account.unmarshalJSON B data)))

/-- wallet.AccountByID: consult the batch-loaded cache first when a
non-empty batch is present, then fall back to an individual store
fetch, caching the result. -/
def Wallet.accountByID (B : BLS) (w : Wallet) (store : Store) (id : String) :
    Wallet × Except String Account :=
  let w1 := (Wallet.retrieveBatchIfRequired B w store).1
  let cached : Option Account :=
    if w1.batchUsable then lookupAccount w1.accounts id else none
  match cached with
  | some a => (w1, .ok a)
  | none =>
    match lookupRecord store.accounts id with
    | none => (w1, .error "failed to retrieve account")
    | some data =>
      match Account.unmarshalJSON B data with
      | .error e => (w1, .error e)
      | .ok res => ({ w1 with accounts := insertAccount w1.accounts id res }, .ok res)

/-- wallet.AccountByName: resolve via the index, then by ID. -/
def Wallet.accountByName (B : BLS) (w : Wallet) (store : Store) (name : String) :
    Wallet × Except String Account :=
  match indexID w.index name with
  | none => (w, .error ("no account with name " ++ goQuote name))
  | some id => Wallet.accountByID B w store id

/-- wallet.storeAccountsIndex: serialize (modelled structurally) and
write the in-memory index to the store. -/
def Wallet.storeAccountsIndex (w : Wallet) (store : Store) : Store × Option String :=
  if store.failStoreIndex then (store, some "failed to store accounts index")
  else ({ store with accountsIndex := some w.index }, none)

/-- account.storeAccount (account.go lines 360-382): marshal, persist
the index (which already holds the new entry), persist the account
record, then confirm the account is retrievable by name and by ID. -/
def Account.storeAccount (B : BLS) (E : Encryptor) (a : Account) (w : Wallet)
    (store : Store) : Wallet × Store × Option String :=
  let data := Account.marshalJSON a E.name
  match Wallet.storeAccountsIndex w store with
  | (store1, some _) => (w, store1, some "failed to store account index")
  | (store1, none) =>
    if store1.failStoreAccount then (w, store1, some "failed to store account")
    else
      let store2 := { store1 with accounts := insertRecord store1.accounts a.id data }
      match Wallet.accountByName B w store2 a.name with
      | (w1, .error _) =>
        (w1, store2, some "failed to confirm account when retrieving by name")
      | (w1, .ok _) =>
        match Wallet.accountByID B w1 store2 a.id with
        | (w2, .error _) =>
          (w2, store2, some "failed to confirm account when retrieveing by ID")
        | (w2, .ok _) => (w2, store2, none)

/-- The registration step of wallet.ImportDistributedAccount (lines
326-334): add the (id, name) pair to the in-memory index, store the
account, revert the index addition if that fails, and cache the new
account on success. -/
def Wallet.importRegister (B : BLS) (E : Encryptor) (a : Account) (w : Wallet)
    (store : Store) : Wallet × Store × Except String Account :=
  let w1 := { w with index := indexAdd w.index a.id a.name }
  match Account.storeAccount B E a w1 store with
  | (w2, store2, some e) =>
    ({ w2 with index := indexRemove w2.index a.id a.name }, store2, .error e)
  | (w2, store2, none) =>
    ({ w2 with accounts := insertAccount w2.accounts a.id a }, store2, .ok a)

/-- wallet.ImportDistributedAccount (lines 248-337).  The fresh random
account ID is passed as a parameter.  The nine validation checks appear
in source order, then the key material is parsed and encrypted and the
account is registered. -/
def Wallet.importDistributedAccount (B : BLS) (E : Encryptor) (w : Wallet) (store : Store)
    (name : String) (privatekey : Bytes) (signingThreshold : Nat)
    (verificationVector : List Bytes) (participants : List (Nat × String))
    (passphrase : String) (freshId : String) : Wallet × Store × Except String Account :=
  if name = "" then (w, store, .error "account name missing")
  else if startsWithUnderscore name = true then
    (w, store, .error ("invalid account name " ++ goQuote name))
  else if privatekey.isEmpty then (w, store, .error "private key missing")
  else if verificationVector.isEmpty then
    (w, store, .error "verification vector missing")
  else if participants.isEmpty then (w, store, .error "participants missing")
  else if signingThreshold ≤ participants.length / 2 then
    (w, store, .error "invalid signing threshold:participant ratio")
  else if verificationVector.length ≠ signingThreshold then
    (w, store, .error "verification vector invalid")
  else if !w.unlocked then
    (w, store, .error "wallet must be unlocked to create accounts")
  else
    match Wallet.accountByName B w store name with
    | (w1, .ok _) =>
      (w1, store, .error ("account with name " ++ goQuote name ++ " already exists"))
    | (w1, .error _) =>
      match B.privFromBytes privatekey with
      | none => (w1, store, .error "failed to obtain BLS private key")
      | some privateKey =>
        match parseVVKeys B verificationVector with
        | none =>
          (w1, store, .error "failed to obtain BLS public key for verification vector")
        | some vv =>
          match E.encrypt privateKey passphrase with
          | none => (w1, store, .error "failed to encrypt private key")
          | some crypto =>
            let a : Account := Account.mk freshId name vv signingThreshold participants
              (some crypto) none (B.pubOfPriv privateKey) E.version
            Wallet.importRegister B E a w1 store

/-- The first-failure reading of the nine validation checks, written
from the specification sentence describing their order.  Used to state
that the implementation short-circuits on exactly this order. -/
def importFirstViolation (B : BLS) (w : Wallet) (store : Store) (name : String)
    (privatekey : Bytes) (signingThreshold : Nat) (verificationVector : List Bytes)
    (participants : List (Nat × String)) : Option String :=
  if name = "" then some "account name missing"
  else if startsWithUnderscore name = true then some ("invalid account name " ++ goQuote name)
  else if privatekey.isEmpty then some "private key missing"
  else if verificationVector.isEmpty then some "verification vector missing"
  else if participants.isEmpty then some "participants missing"
  else if signingThreshold ≤ participants.length / 2 then
    some "invalid signing threshold:participant ratio"
  else if verificationVector.length ≠ signingThreshold then
    some "verification vector invalid"
  else if !w.unlocked then some "wallet must be unlocked to create accounts"
  else
    match Wallet.accountByName B w store name with
    | (_, .ok _) => some ("account with name " ++ goQuote name ++ " already exists")
    | (_, .error _) => none

/-! ## Batch construction (wallet.BatchWallet) -/

/-- The passphrase loop of wallet.BatchWallet: try each candidate in
order through account.Unlock, first success wins; on failure the
account is left as it was. -/
def unlockWithPassphrases (B : BLS) (E : Encryptor) (a : Account) :
    List String → Account × Bool
  | [] => (a, false)
  | p :: rest =>
    match Account.unlock B E a p with
    | (a1, none) => (a1, true)
    | (_, some _) => unlockWithPassphrases B E a rest

/-- The account-collection loop of wallet.BatchWallet: deserialise
every store record (skipping records that fail to deserialise), unlock
each resulting account with the candidate passphrases, and abort
naming the first account no candidate unlocks. -/
def batchCollectAccounts (B : BLS) (E : Encryptor) (passphrases : List String) :
    List Json → Except String (List Account)
  | [] => .ok []
  | data :: rest =>
    match Account.unmarshalJSON B data with
    | .error _ => batchCollectAccounts B E passphrases rest
    | .ok a =>
      match unlockWithPassphrases B E a passphrases with
      | (_, false) =>
        .error ("unable to decrypt account " ++ goQuote a.name ++ " with supplied passphrases")
      | (a1, true) =>
        match batchCollectAccounts B E passphrases rest with
        | .error e => .error e
        | .ok others => .ok (a1 :: others)

/-- The public data of one unlocked account as a batch entry. -/
def accountBatchEntry (a : Account) : BatchEntry :=
  BatchEntry.mk a.id a.name a.verificationVector a.signingThreshold
    (a.participants.map (fun kv => (natToString kv.1, kv.2))) a.publicKey

/-- wallet.BatchWallet (batch source lines 46-116): require the
batch-storer capability, unlock every account record with the
candidate passphrases, concatenate the secret keys in entry order,
encrypt the concatenation once, and store the batch record.  BatchWallet
does not mutate the in-memory wallet state, so only the store is
returned. -/
def Wallet.batchWallet (B : BLS) (E : Encryptor) (w : Wallet) (store : Store)
    (passphrases : List String) (batchPassphrase : String) : Store × Option String :=
  if !store.isBatchStorer then (store, some "store cannot store batches")
  else
    match batchCollectAccounts B E passphrases (store.accounts.map Prod.snd) with
    | .error e => (store, some e)
    | .ok accounts =>
      let entries := accounts.map accountBatchEntry
      let secretKeys := (accounts.map (fun a => a.secretKey.getD [])).foldr
        (fun x acc => x ++ acc) []
      match E.encrypt secretKeys batchPassphrase with
      | none => (store, some "failed to encrypt batch")
      | some crypto =>
        if store.failStoreBatch then (store, some "failed to store batch")
        else ({ store with batch := some (Batch.mk entries (some crypto)) }, none)

/-! ## Index retrieval (wallet.retrieveAccountsIndex) -/

/-- wallet.retrieveAccountsIndex (lines 521-541): load the persisted
index, or, when it is absent, reset the index, rebuild it from the
account enumeration and persist the rebuilt index.  Deserialisation of
a present index record is external (go-indexer) and modelled as always
succeeding. -/
def Wallet.retrieveAccountsIndex (B : BLS) (w : Wallet) (store : Store) :
    Wallet × Store × Option String :=
  match store.accountsIndex with
  | some ix => ({ w with index := ix }, store, none)
  | none =>
    let res := Wallet.accountsList B { w with index := [] } store
    let w2 := { res.1 with
      index := res.2.foldl (fun ix a => indexAdd ix a.id a.name) [] }
    match Wallet.storeAccountsIndex w2 store with
    | (store1, some e) => (w2, store1, some e)
    | (store1, none) => (w2, store1, none)

/-- The name-and-ID mapping derived directly from the parseable account
records held by the store: the authoritative content of the index per
the specification. -/
def derivedIndex (B : BLS) (store : Store) : Index :=
  ((store.accounts.map Prod.snd).filterMap
    (fun data => exceptToOption (Account.unmarshalJSON B data))).map
    (fun a => (a.id, a.name))

/-! ## Concrete collaborator instances

Executable instantiations of the injected capabilities, used to
evaluate the model at concrete inputs.  The encryptor records the
passphrase and the payload inside the opaque record (the record is
opaque to the wallet code, so its shape is chosen by the
instantiation); private keys are 32 bytes and the derived public key is the
byte 7 followed by the private key. -/

def exceptIsOk {α : Type} : Except String α → Bool
  | .ok _ => true
  | .error _ => false

def jsonToByte : Json → Option Nat
  | .num q => if q.den = 1 ∧ 0 ≤ q.num ∧ q.num < 256 then some q.num.toNat else none
  | _ => none

def jsonBytes : List Json → Option Bytes
  | [] => some []
  | j :: rest =>
    match jsonToByte j, jsonBytes rest with
    | some b, some bs => some (b :: bs)
    | _, _ => none

def toyEncrypt (data : Bytes) (pass : String) : Option Crypto :=
  some [("pass", Json.str pass), ("data", Json.arr (data.map (fun b => Json.num (b : ℚ))))]

def toyDecrypt : Option Crypto → String → Option Bytes
  | none, _ => none
  | some c, pass =>
    match jsonLookup c "pass", jsonLookup c "data" with
    | some (.str p), some (.arr xs) => if p = pass then jsonBytes xs else none
    | _, _ => none

def toyE : Encryptor := Encryptor.mk toyEncrypt toyDecrypt "keystore" 4

def toyB : BLS := BLS.mk
  (fun b => if b.length = 32 then some b else none)
  (fun b => if b.length = 33 then some b else none)
  (fun b => 7 :: b)
  (fun sk m => sk ++ m)

/-! ## Claim C6 -/

/-- Claim C6: for every locked account and every passphrase under which
decryption of the stored crypto record fails, Unlock returns the
uniform incorrect-passphrase error, the account remains locked, and
Sign and PrivateKey continue to fail. -/
theorem unlock_wrong_passphrase_leaves_locked (B : BLS) (E : Encryptor) (a : Account)
    (p : String) (d : Bytes)
    (hlocked : a.secretKey = none) (hdec : E.decrypt a.crypto p = none) :
    Account.unlock B E a p = (a, some "incorrect passphrase") ∧
    Account.signData B (Account.unlock B E a p).1 d
      = .error "cannot sign when account is locked" ∧
    Account.privateKey (Account.unlock B E a p).1
      = .error "cannot provide private key when account is locked" := by
  have h1 : Account.unlock B E a p = (a, some "incorrect passphrase") := by
    unfold Account.unlock
    rw [hlocked, hdec]
    rfl
  refine ⟨h1, ?_, ?_⟩ <;> rw [h1] <;>
    simp only [Account.signData, Account.privateKey, hlocked]

/-- A concrete locked account whose crypto record was produced under
the passphrase "right". -/
def acct6 : Account :=
  Account.mk "id6" "acct6" [7 :: List.replicate 32 1] 1 [(1, "server1")]
    (toyEncrypt (List.replicate 32 1) "right") none (7 :: List.replicate 32 1) 4

theorem unlock_wrong_passphrase_leaves_locked_witness :
    Account.unlock toyB toyE acct6 "wrong" = (acct6, some "incorrect passphrase") ∧
    Account.signData toyB (Account.unlock toyB toyE acct6 "wrong").1 [1, 2]
      = .error "cannot sign when account is locked" ∧
    Account.privateKey (Account.unlock toyB toyE acct6 "wrong").1
      = .error "cannot provide private key when account is locked" :=
  unlock_wrong_passphrase_leaves_locked toyB toyE acct6 "wrong" [1, 2] rfl rfl

/-! ## Claim C2 -/

/-- Claim C2: ImportDistributedAccount performs its nine validation
checks in exactly the specified order, returning on the first failure:
whenever the first-failure reading of the checks (importFirstViolation,
written from the specification) produces an error, the implementation
returns exactly that error. -/
theorem importDistributedAccount_validation_order (B : BLS) (E : Encryptor) (w : Wallet)
    (store : Store) (name : String) (privatekey : Bytes) (signingThreshold : Nat)
    (verificationVector : List Bytes) (participants : List (Nat × String))
    (passphrase : String) (freshId : String) (e : String)
    (h : importFirstViolation B w store name privatekey signingThreshold
      verificationVector participants = some e) :
    (Wallet.importDistributedAccount B E w store name privatekey signingThreshold
      verificationVector participants passphrase freshId).2.2 = .error e := by
  unfold importFirstViolation at h
  unfold Wallet.importDistributedAccount
  split_ifs at h ⊢ <;> try (injection h with h; rw [h])
  rcases hms : Wallet.accountByName B w store name with ⟨w1, r⟩
  rw [hms] at h
  cases r with
  | ok a =>
    injection h with h
    rw [h]
  | error err =>
    exact absurd h (by simp)

/-- An input violating several checks at once (empty name, empty
private key, empty verification vector): the error produced is that of
the earliest check. -/
def w0 : Wallet := Wallet.mk "wid" "test wallet" 1 true [] none [] false

def store0 : Store := Store.mk [] none none false false false false false

theorem importDistributedAccount_validation_order_witness :
    importFirstViolation toyB w0 store0 "" [] 2 [] [] = some "account name missing" ∧
    (Wallet.importDistributedAccount toyB toyE w0 store0 "" [] 2 [] [] "p" "aid").2.2
      = .error "account name missing" :=
  ⟨rfl, importDistributedAccount_validation_order toyB toyE w0 store0 "" [] 2 [] [] "p"
    "aid" "account name missing" rfl⟩

/-! ## Claim C4 -/

def sk1 : Bytes := List.replicate 32 1

def vv2 : List Bytes := [7 :: List.replicate 32 1, 7 :: List.replicate 32 2]

def vv3 : List Bytes := vv2 ++ [7 :: List.replicate 32 3]

def parts3 : List (Nat × String) := [(1, "foo"), (2, "bar"), (3, "baz")]

/-- Claim C4: ImportDistributedAccount succeeds only if the signing
threshold exceeds half the participant count (integer division) and the
verification vector has exactly threshold entries; with threshold 1 and
3 participants it fails with the threshold-ratio error, and with
threshold 3, 3 participants and a 2-entry verification vector it fails
with the verification-vector error. -/
theorem importDistributedAccount_threshold_necessity :
    (∀ (B : BLS) (E : Encryptor) (w : Wallet) (store : Store) (name : String)
      (privatekey : Bytes) (signingThreshold : Nat) (verificationVector : List Bytes)
      (participants : List (Nat × String)) (passphrase freshId : String),
      exceptIsOk (Wallet.importDistributedAccount B E w store name privatekey
        signingThreshold verificationVector participants passphrase freshId).2.2 = true →
      participants.length / 2 < signingThreshold ∧
      verificationVector.length = signingThreshold) ∧
    (Wallet.importDistributedAccount toyB toyE w0 store0 "test" sk1 1 vv3 parts3
      "pass" "aid").2.2 = .error "invalid signing threshold:participant ratio" ∧
    (Wallet.importDistributedAccount toyB toyE w0 store0 "test" sk1 3 vv2 parts3
      "pass" "aid").2.2 = .error "verification vector invalid" := by
  refine ⟨?_, rfl, rfl⟩
  intro B E w store name privatekey t vv parts pass freshId h
  unfold Wallet.importDistributedAccount at h
  split_ifs at h with h1 h2 h3 h4 h5 h6 h7 h8
  all_goals try exact ⟨by omega, by omega⟩
  all_goals simp [exceptIsOk] at h

theorem importDistributedAccount_threshold_necessity_witness :
    parts3.length / 2 < 2 ∧ vv2.length = 2 :=
  importDistributedAccount_threshold_necessity.1 toyB toyE w0 store0 "test" sk1 2 vv2
    parts3 "pass" "aid" (by decide)

/-! ## Claim C9 -/

/-- Claim C9: when no usable batch is present, Accounts yields exactly
the store records that deserialise successfully, silently omitting (and
reporting no error for) every record that fails to deserialise. -/
theorem accounts_no_batch_filterMap (B : BLS) (w : Wallet) (store : Store)
    (h : (Wallet.retrieveBatchIfRequired B w store).1.batchUsable = false) :
    (Wallet.accountsList B w store).2 = (store.accounts.map Prod.snd).filterMap
      (fun data => exceptToOption (Account.unmarshalJSON B data)) := by
  unfold Wallet.accountsList
  simp only []
  rw [h]
  rfl

/-- A store holding one well-formed record and one corrupt record. -/
def rec9good : Json :=
  Account.marshalJSON acct6 "keystore"

def store9 : Store :=
  Store.mk [("id6", rec9good), ("junk", Json.str "bad")] none none false false
    false false false

theorem accounts_no_batch_filterMap_witness :
    (Wallet.accountsList toyB w0 store9).2 = (store9.accounts.map Prod.snd).filterMap
      (fun data => exceptToOption (Account.unmarshalJSON toyB data)) ∧
    (Wallet.accountsList toyB w0 store9).2.length = 1 :=
  ⟨accounts_no_batch_filterMap toyB w0 store9 rfl, by decide⟩

/-! ## Claim C8 -/

theorem parseVerificationVector_roundtrip (B : BLS) (vv : List Bytes) (i : Nat)
    (hvv : ∀ v ∈ vv, B.pubFromBytes v = some v)
    (hb : ∀ v ∈ vv, ∀ x ∈ v, x < 256) :
    parseVerificationVector B i (vv.map (fun v => Json.str (hexEncode v))) = .ok vv := by
  induction vv generalizing i with
  | nil => rfl
  | cons v rest ih =>
    have h1 := hvv v (List.mem_cons_self _ _)
    have h2 := hb v (List.mem_cons_self _ _)
    simp [parseVerificationVector, hexDecode_hexEncode v h2, h1,
      ih (i + 1) (fun x hx => hvv x (List.mem_cons_of_mem _ hx))
        (fun x hx => hb x (List.mem_cons_of_mem _ hx))]

theorem parseParticipants_roundtrip (ps : List (Nat × String)) :
    parseParticipants (ps.map (fun kv => (natToString kv.1, Json.str kv.2))) = .ok ps := by
  induction ps with
  | nil => rfl
  | cons kv rest ih => simp [parseParticipants, parseUint_natToString, ih]

/-- Claim C8: for every well-formed account whose encryptor version is
4, marshalling with MarshalJSON and unmarshalling the result with
UnmarshalJSON reproduces the account on every public field (the secret
key is never serialised, so the result is the locked account). -/
theorem marshalJSON_unmarshalJSON_roundtrip (B : BLS) (a : Account) (en : String)
    (hver : a.version = 4)
    (hcr : a.crypto.isSome = true)
    (hpub : B.pubFromBytes a.publicKey = some a.publicKey)
    (hpubB : ∀ x ∈ a.publicKey, x < 256)
    (hvv : ∀ v ∈ a.verificationVector, B.pubFromBytes v = some v)
    (hvvB : ∀ v ∈ a.verificationVector, ∀ x ∈ v, x < 256)
    (hth : a.participants.length / 2 < a.signingThreshold) :
    Account.unmarshalJSON B (Account.marshalJSON a en)
      = .ok { a with secretKey := none } := by
  obtain ⟨c, hc⟩ := Option.isSome_iff_exists.mp hcr
  obtain ⟨aid, aname, avv, ath, aps, acr, ask, apk, aver⟩ := a
  simp only at hver hc hpub hpubB hvv hvvB hth ⊢
  subst hver hc
  unfold Account.marshalJSON Account.unmarshalJSON
  simp only [jsonLookup, Bind.bind, Except.bind, String.reduceEq, if_true, if_false,
    reduceIte, hexDecode_hexEncode apk hpubB, hpub,
    parseVerificationVector_roundtrip B avv 0 hvv hvvB,
    parseParticipants_roundtrip aps, ratToUint_natCast]
  rw [if_neg (by omega)]

/-! ## Claim C10 -/

theorem exbind_ok {α β : Type} (a : α) (f : α → Except String β) :
    (Except.ok a >>= f) = f a := rfl

theorem exbind_error {α β : Type} (e : String) (f : α → Except String β) :
    ((Except.error e : Except String α) >>= f) = .error e := rfl

theorem exbind_imp {α β : Type} {x : Except String α} {g : α → Except String β} {b : β}
    (hg : ∀ y, g y = .ok b → False) : (x >>= g) = .ok b → False := by
  cases x with
  | ok y => exact hg y
  | error e => exact fun hh => Except.noConfusion hh

/-- Claim C10 (amended): whenever the version field of a record is a
number whose Go float-to-uint truncation differs from 4, account
deserialisation never succeeds.  (The stated claim, that every version
number other than 4 is rejected, fails: a fractional number such as
9/2 is truncated by the conversion and accepted.) -/
theorem unmarshalJSON_rejects_version_not_4 (B : BLS) (v : List (String × Json)) (q : ℚ)
    (hlookup : jsonLookup v "version" = some (Json.num q)) (hne : ratToUint q ≠ 4) :
    ∀ a, Account.unmarshalJSON B (Json.obj v) ≠ .ok a := by
  intro a h
  unfold Account.unmarshalJSON at h
  simp only [exbind_ok] at h
  simp only [hlookup] at h
  revert h
  repeat'
    first
    | simp only [exbind_ok, exbind_error]
    | split
    | (refine exbind_imp ?_; intro y; try beta_reduce)
  all_goals
    first
    | exact fun hh => Except.noConfusion hh
    | exact absurd ‹ratToUint q = 4› hne

def pub45 : Bytes := 7 :: List.replicate 32 9

/-- The rational 9/2, built in normalized form so that it evaluates
inside the kernel. -/
def ratNineHalves : ℚ := Rat.mk' 9 2 (by norm_num) (by norm_num)

theorem ratNineHalves_eq : ratNineHalves = (9 : ℚ) / 2 := by
  rw [ratNineHalves, Rat.mk'_eq_divInt, Rat.divInt_eq_div]
  norm_num

/-- A record whose every field is valid and whose version is the
fractional number 9/2. -/
def acct45fields : List (String × Json) :=
  [("uuid", Json.str "u45"), ("name", Json.str "acct45"),
   ("pubkey", Json.str (hexEncode pub45)),
   ("verificationvector", Json.arr [Json.str (hexEncode pub45)]),
   ("participants", Json.obj [("1", Json.str "foo")]),
   ("signing_threshold", Json.num 1),
   ("crypto", Json.obj []),
   ("encryptor", Json.str "keystore"),
   ("version", Json.num ratNineHalves)]

/-- The same record with the integral version 99. -/
def acct99fields : List (String × Json) :=
  [("uuid", Json.str "u45"), ("name", Json.str "acct45"),
   ("pubkey", Json.str (hexEncode pub45)),
   ("verificationvector", Json.arr [Json.str (hexEncode pub45)]),
   ("participants", Json.obj [("1", Json.str "foo")]),
   ("signing_threshold", Json.num 1),
   ("crypto", Json.obj []),
   ("encryptor", Json.str "keystore"),
   ("version", Json.num 99)]

def exceptErrMsg {α : Type} : Except String α → Option String
  | .ok _ => none
  | .error e => some e

/-- Refutes claim C10 as stated: the version field 9/2 is a number
other than 4, every other field is valid, yet UnmarshalJSON succeeds
and produces a version-4 account (the Go float-to-uint conversion
truncates 9/2 to 4).  On an integral version other than 4 the stated
unsupported-keystore-version error does occur. -/
theorem unmarshalJSON_version_counterexample :
    ratNineHalves = (9 : ℚ) / 2 ∧ ratNineHalves ≠ 4 ∧
    exceptIsOk (Account.unmarshalJSON toyB (Json.obj acct45fields)) = true ∧
    (match Account.unmarshalJSON toyB (Json.obj acct45fields) with
      | .ok a => a.version
      | .error _ => 0) = 4 ∧
    exceptErrMsg (Account.unmarshalJSON toyB (Json.obj acct99fields))
      = some "unsupported keystore version" :=
  ⟨ratNineHalves_eq, by decide, by decide, by decide, by decide⟩

theorem unmarshalJSON_rejects_version_not_4_witness :
    Account.unmarshalJSON toyB (Json.obj acct99fields)
      ≠ .ok (Account.mk "u45" "acct45" [pub45] 1 [(1, "foo")] (some []) none pub45 4) :=
  unmarshalJSON_rejects_version_not_4 toyB acct99fields 99 rfl (by decide)
    (Account.mk "u45" "acct45" [pub45] 1 [(1, "foo")] (some []) none pub45 4)

theorem marshalJSON_unmarshalJSON_roundtrip_witness :
    Account.unmarshalJSON toyB (Account.marshalJSON acct6 "keystore")
      = .ok { acct6 with secretKey := none } :=
  marshalJSON_unmarshalJSON_roundtrip toyB acct6 "keystore" rfl rfl (by decide)
    (by decide) (by decide) (by decide) (by decide)

/-! ## Claim C5 -/

/-- The first store record (in enumeration order) that deserialises to
an account none of the candidate passphrases unlocks. -/
def firstUndecryptable (B : BLS) (E : Encryptor) (passphrases : List String) :
    List Json → Option Account
  | [] => none
  | data :: rest =>
    match Account.unmarshalJSON B data with
    | .error _ => firstUndecryptable B E passphrases rest
    | .ok a =>
      match unlockWithPassphrases B E a passphrases with
      | (_, false) => some a
      | (_, true) => firstUndecryptable B E passphrases rest

theorem batchCollect_error_of_firstUndecryptable (B : BLS) (E : Encryptor)
    (passphrases : List String) (records : List Json) (a : Account)
    (h : firstUndecryptable B E passphrases records = some a) :
    batchCollectAccounts B E passphrases records
      = .error ("unable to decrypt account " ++ goQuote a.name
          ++ " with supplied passphrases") := by
  induction records with
  | nil => simp [firstUndecryptable] at h
  | cons data rest ih =>
    rw [firstUndecryptable] at h
    rw [batchCollectAccounts]
    rcases hu : Account.unmarshalJSON B data with e | acct <;> rw [hu] at h <;>
      simp only [] at h ⊢
    · exact ih h
    · rcases hw : unlockWithPassphrases B E acct passphrases with ⟨a1, ok⟩
      rw [hw] at h
      cases ok with
      | false =>
        simp only [] at h ⊢
        injection h with h
        subst h
        rfl
      | true =>
        simp only [] at h ⊢
        rw [ih h]

theorem firstUndecryptable_none_of_batchCollect_ok (B : BLS) (E : Encryptor)
    (passphrases : List String) (records : List Json) (l : List Account)
    (h : batchCollectAccounts B E passphrases records = .ok l) :
    firstUndecryptable B E passphrases records = none := by
  induction records generalizing l with
  | nil => rfl
  | cons data rest ih =>
    rw [batchCollectAccounts] at h
    rw [firstUndecryptable]
    rcases hu : Account.unmarshalJSON B data with e | acct <;> rw [hu] at h <;>
      simp only [] at h ⊢
    · exact ih l h
    · rcases hw : unlockWithPassphrases B E acct passphrases with ⟨a1, ok⟩
      rw [hw] at h
      cases ok with
      | false =>
        simp only [] at h
        exact absurd h (by simp)
      | true =>
        simp only [] at h ⊢
        rcases hr : batchCollectAccounts B E passphrases rest with e2 | l2 <;>
          rw [hr] at h <;> simp only [] at h
        · exact absurd h (by simp)
        · exact ih l2 hr

/-- Claim C5: BatchWallet either unlocks every account record found in
the store with some candidate passphrase, or returns an error naming
the (first) account no candidate unlocks and leaves the store
untouched, never reaching StoreBatch. -/
theorem batchWallet_all_or_nothing (B : BLS) (E : Encryptor) (w : Wallet) (store : Store)
    (passphrases : List String) (batchPassphrase : String)
    (hstorer : store.isBatchStorer = true) :
    (∀ a, firstUndecryptable B E passphrases (store.accounts.map Prod.snd) = some a →
      Wallet.batchWallet B E w store passphrases batchPassphrase
        = (store, some ("unable to decrypt account " ++ goQuote a.name
            ++ " with supplied passphrases"))) ∧
    ((Wallet.batchWallet B E w store passphrases batchPassphrase).2 = none →
      firstUndecryptable B E passphrases (store.accounts.map Prod.snd) = none) := by
  constructor
  · intro a ha
    unfold Wallet.batchWallet
    rw [hstorer]
    rw [batchCollect_error_of_firstUndecryptable B E passphrases _ a ha]
    rfl
  · intro h
    unfold Wallet.batchWallet at h
    rw [hstorer] at h
    rcases hc : batchCollectAccounts B E passphrases (store.accounts.map Prod.snd)
      with e | l <;> rw [hc] at h
    · exact absurd h (by simp)
    · exact firstUndecryptable_none_of_batchCollect_ok B E passphrases _ l hc

def skA : Bytes := List.replicate 32 3

def skB : Bytes := List.replicate 32 4

def acctA : Account :=
  Account.mk "ida" "account a" [7 :: skA] 1 [(1, "x")] (toyEncrypt skA "p1") none
    (7 :: skA) 4

def acctB : Account :=
  Account.mk "idb" "account b" [7 :: skB] 1 [(1, "x")] (toyEncrypt skB "p2") none
    (7 :: skB) 4

/-- A batch-capable store holding one account unlockable with p1 and
one that is not. -/
def store5 : Store :=
  Store.mk [("ida", Account.marshalJSON acctA "keystore"),
    ("idb", Account.marshalJSON acctB "keystore")] none none false true false false false

theorem batchWallet_all_or_nothing_witness :
    store5.isBatchStorer = true ∧
    Wallet.batchWallet toyB toyE w0 store5 ["p1"] "bp"
      = (store5, some ("unable to decrypt account " ++ goQuote acctB.name
          ++ " with supplied passphrases")) :=
  ⟨rfl, (batchWallet_all_or_nothing toyB toyE w0 store5 ["p1"] "bp" rfl).1 acctB rfl⟩

/-! ## Claim C7 -/

theorem foldl_indexAdd (accs : List Account) (init : Index) :
    accs.foldl (fun ix a => indexAdd ix a.id a.name) init
      = init ++ accs.map (fun a => (a.id, a.name)) := by
  induction accs generalizing init with
  | nil => simp
  | cons a rest ih =>
    rw [List.foldl_cons, ih, List.map_cons, indexAdd, List.append_assoc]
    rfl

theorem retrieveBatchIfRequired_batchUsable_false (B : BLS) (w : Wallet) (store : Store)
    (hw : w.batch = none)
    (hnb : match store.batch with | some b => b.entries = [] | none => True) :
    (Wallet.retrieveBatchIfRequired B w store).1.batchUsable = false := by
  cases hrb : store.isBatchRetriever with
  | false => simp [Wallet.retrieveBatchIfRequired, hrb, Wallet.batchUsable, hw]
  | true =>
    rcases hb : store.batch with _ | ⟨entries, crypto⟩
    · simp [Wallet.retrieveBatchIfRequired, Wallet.retrieveAccountsBatch, hrb, hw, hb,
        Wallet.batchUsable]
    · rw [hb] at hnb
      simp only [] at hnb
      subst hnb
      simp [Wallet.retrieveBatchIfRequired, Wallet.retrieveAccountsBatch, hrb, hw, hb,
        Wallet.batchUsable, materializeEntries]

/-- Claim C7 (amended): provided the store offers no batch entries (no
batch record, or an empty one), deleting the persisted index and
reopening the wallet rebuilds and re-persists exactly the mapping
derived from the parseable account records.  (As stated the claim
fails: when the store holds a stale non-empty batch, the rebuild
enumerates the batch-materialised accounts instead of the store
records.) -/
theorem retrieveAccountsIndex_rebuilds_derived (B : BLS) (w : Wallet) (store : Store)
    (hnone : store.accountsIndex = none)
    (hw : w.batch = none)
    (hnb : match store.batch with | some b => b.entries = [] | none => True)
    (hfail : store.failStoreIndex = false) :
    (Wallet.retrieveAccountsIndex B w store).1.index = derivedIndex B store ∧
    (Wallet.retrieveAccountsIndex B w store).2.1.accountsIndex
      = some (derivedIndex B store) ∧
    (Wallet.retrieveAccountsIndex B w store).2.2 = none := by
  have hbu : (Wallet.retrieveBatchIfRequired B { w with index := [] } store).1.batchUsable
      = false :=
    retrieveBatchIfRequired_batchUsable_false B { w with index := [] } store hw hnb
  have hacc : (Wallet.accountsList B { w with index := [] } store).2
      = (store.accounts.map Prod.snd).filterMap
        (fun d => exceptToOption (Account.unmarshalJSON B d)) := by
    unfold Wallet.accountsList
    simp only []
    rw [hbu]
    rfl
  unfold Wallet.retrieveAccountsIndex Wallet.storeAccountsIndex
  rw [hnone, hfail]
  simp only [Bool.false_eq_true, if_false]
  rw [hacc, foldl_indexAdd]
  simp [derivedIndex]

/-- A freshly opened wallet. -/
def w7 : Wallet := Wallet.mk "wid" "test wallet" 1 false [] none [] false

/-- The batch entry for the first account only (the batch is stale). -/
def entryA : BatchEntry :=
  BatchEntry.mk "ida" "account a" [7 :: skA] 1 [("1", "x")] (7 :: skA)

/-- A store with two parseable account records, no persisted index, and
a stale batch covering only the first account. -/
def store7 : Store :=
  Store.mk [("ida", Account.marshalJSON acctA "keystore"),
    ("idb", Account.marshalJSON acctB "keystore")] none
    (some (Batch.mk [entryA] none)) true false false false false

/-- Refutes claim C7 as stated: this store holds two parseable account
records, but reopening after index deletion rebuilds an index holding
only the stale batch entry, not the record-derived mapping. -/
theorem retrieveAccountsIndex_batch_counterexample :
    (Wallet.retrieveAccountsIndex toyB w7 store7).1.index = [("ida", "account a")] ∧
    derivedIndex toyB store7 = [("ida", "account a"), ("idb", "account b")] ∧
    (Wallet.retrieveAccountsIndex toyB w7 store7).1.index ≠ derivedIndex toyB store7 :=
  ⟨rfl, rfl, by decide⟩

theorem retrieveAccountsIndex_rebuilds_derived_witness :
    (Wallet.retrieveAccountsIndex toyB w7 store5).1.index = derivedIndex toyB store5 ∧
    (Wallet.retrieveAccountsIndex toyB w7 store5).2.1.accountsIndex
      = some (derivedIndex toyB store5) ∧
    (Wallet.retrieveAccountsIndex toyB w7 store5).2.2 = none :=
  retrieveAccountsIndex_rebuilds_derived toyB w7 store5 rfl rfl trivial rfl

/-! ## Claim C1 -/

def skC1 : Bytes := List.replicate 32 5

def pkC1 : Bytes := 7 :: skC1

def entryC1 : BatchEntry :=
  BatchEntry.mk "idc1" "batched account" [pkC1] 1 [("1", "server1")] pkC1

/-- A stored batch whose single ciphertext is the concatenated secret
keys (here one key) encrypted under the batch passphrase. -/
def batchC1 : Batch := Batch.mk [entryC1] (toyEncrypt skC1 "batch passphrase")

def storeC1 : Store :=
  Store.mk [] (some [("idc1", "batched account")]) (some batchC1) true false
    false false false

/-- The wallet as reopened: index loaded, no batch fetched yet. -/
def wC1 : Wallet :=
  Wallet.mk "wid" "test wallet" 1 false [("idc1", "batched account")] none [] false

/-- The wallet after the lazy batch fetch materialised the entry. -/
def wC1m : Wallet := (Wallet.retrieveAccountsBatch toyB wC1 storeC1).1

/-- The account the batch entry materialises: no crypto record, locked,
wallet schema version. -/
def acctC1 : Account :=
  Account.mk "idc1" "batched account" [pkC1] 1 [(1, "server1")] none none pkC1 1

/-- Claim C1 fails on this code: the batch fetch materialises the
account with no crypto record, and Unlock with the batch passphrase
then hands that nil record to the encryptor and fails with the
incorrect-passphrase error, leaving the secret key absent — Unlock
never consults wallet.batchDecrypt, which with the very same passphrase
decrypts the batch and installs the secret key (as the batch test of
the repository itself expects Unlock to do). -/
theorem unlock_of_batch_materialized_account_fails :
    (Wallet.retrieveAccountsBatch toyB wC1 storeC1).2 = none ∧
    lookupAccount wC1m.accounts "idc1" = some acctC1 ∧
    acctC1.crypto = none ∧
    Account.unlock toyB toyE acctC1 "batch passphrase"
      = (acctC1, some "incorrect passphrase") ∧
    (Wallet.batchDecrypt toyB toyE wC1m "batch passphrase").2 = none ∧
    lookupAccount (Wallet.batchDecrypt toyB toyE wC1m "batch passphrase").1.accounts
      "idc1" = some { acctC1 with secretKey := some skC1 } :=
  ⟨rfl, rfl, rfl, rfl, rfl, rfl⟩

/-! ## Claim C3 -/

theorem indexRemove_indexAdd (ix : Index) (id name : String)
    (h : ∀ p ∈ ix, p.1 ≠ id) :
    indexRemove (indexAdd ix id name) id name = ix := by
  unfold indexAdd indexRemove
  rw [List.filter_append]
  have h1 : ix.filter (fun e => !(e.1 == id && e.2 == name)) = ix := by
    refine List.filter_eq_self.mpr (fun p hp => ?_)
    have hne := h p hp
    simp [hne]
  have h2 : List.filter (fun e => !(e.1 == id && e.2 == name)) [(id, name)] = [] := by
    simp
  rw [h1, h2, List.append_nil]

theorem lookupAccount_insert_ne (accs : List (String × Account)) (k : String)
    (a : Account) (id' : String) (h : k ≠ id') :
    lookupAccount (insertAccount accs k a) id' = lookupAccount accs id' := by
  induction accs with
  | nil => simp [insertAccount, lookupAccount, h]
  | cons e rest ih =>
    by_cases he : e.1 = k
    · simp [insertAccount, lookupAccount, he, h]
    · simp only [insertAccount, if_neg he, lookupAccount]
      by_cases hi : e.1 = id'
      · rw [if_pos hi, if_pos hi]
      · rw [if_neg hi, if_neg hi, ih]

theorem materializeEntries_index (B : BLS) (entries : List BatchEntry) (w : Wallet) :
    (materializeEntries B w entries).1.index = w.index := by
  induction entries generalizing w with
  | nil => rfl
  | cons e rest ih =>
    rw [materializeEntries]
    rcases B.pubFromBytes e.pubkey with _ | pk
    · rfl
    · rcases parseVVKeys B e.verificationVector with _ | vv
      · rfl
      · rcases parsePartStrings e.participants with _ | ps
        · rfl
        · exact ih _

theorem materializeEntries_lookup_none (B : BLS) (entries : List BatchEntry) (w : Wallet)
    (id' : String) (hl : lookupAccount w.accounts id' = none)
    (he : ∀ e ∈ entries, e.id ≠ id') :
    lookupAccount (materializeEntries B w entries).1.accounts id' = none := by
  induction entries generalizing w with
  | nil => exact hl
  | cons e rest ih =>
    rw [materializeEntries]
    rcases B.pubFromBytes e.pubkey with _ | pk
    · exact hl
    · rcases parseVVKeys B e.verificationVector with _ | vv
      · exact hl
      · rcases parsePartStrings e.participants with _ | ps
        · exact hl
        · refine ih _ ?_ (fun x hx => he x (List.mem_cons_of_mem e hx))
          show lookupAccount (insertAccount w.accounts e.id _) id' = none
          rw [lookupAccount_insert_ne _ _ _ _ (he e (List.mem_cons_self e rest))]
          exact hl

theorem retrieveAccountsBatch_index (B : BLS) (w : Wallet) (store : Store) :
    (Wallet.retrieveAccountsBatch B w store).1.index = w.index := by
  unfold Wallet.retrieveAccountsBatch
  cases hwb : w.batch.isSome with
  | true => simp
  | false =>
    simp only [Bool.false_eq_true, if_false]
    cases hr : store.isBatchRetriever with
    | false => simp
    | true =>
      simp only [Bool.not_true, Bool.false_eq_true, if_false]
      rcases store.batch with _ | b
      · rfl
      · exact materializeEntries_index B b.entries _

theorem retrieveAccountsBatch_lookup_none (B : BLS) (w : Wallet) (store : Store)
    (id' : String) (hl : lookupAccount w.accounts id' = none)
    (hsb : ∀ b, store.batch = some b → ∀ e ∈ b.entries, e.id ≠ id') :
    lookupAccount (Wallet.retrieveAccountsBatch B w store).1.accounts id' = none := by
  unfold Wallet.retrieveAccountsBatch
  cases hwb : w.batch.isSome with
  | true => simpa using hl
  | false =>
    simp only [Bool.false_eq_true, if_false]
    cases hr : store.isBatchRetriever with
    | false => simpa using hl
    | true =>
      simp only [Bool.not_true, Bool.false_eq_true, if_false]
      rcases hb : store.batch with _ | b
      · exact hl
      · exact materializeEntries_lookup_none B b.entries _ id' hl (hsb b hb)

theorem retrieveBatchIfRequired_index (B : BLS) (w : Wallet) (store : Store) :
    (Wallet.retrieveBatchIfRequired B w store).1.index = w.index := by
  unfold Wallet.retrieveBatchIfRequired
  split
  · exact retrieveAccountsBatch_index B w store
  · rfl

theorem retrieveBatchIfRequired_lookup_none (B : BLS) (w : Wallet) (store : Store)
    (id' : String) (hl : lookupAccount w.accounts id' = none)
    (hsb : ∀ b, store.batch = some b → ∀ e ∈ b.entries, e.id ≠ id') :
    lookupAccount (Wallet.retrieveBatchIfRequired B w store).1.accounts id' = none := by
  unfold Wallet.retrieveBatchIfRequired
  split
  · exact retrieveAccountsBatch_lookup_none B w store id' hl hsb
  · exact hl

theorem accountByID_index (B : BLS) (w : Wallet) (store : Store) (qid : String) :
    (Wallet.accountByID B w store qid).1.index = w.index := by
  unfold Wallet.accountByID
  simp only []
  repeat' split
  all_goals exact retrieveBatchIfRequired_index B w store

theorem accountByID_lookup_none (B : BLS) (w : Wallet) (store : Store) (qid id' : String)
    (hne : qid ≠ id') (hl : lookupAccount w.accounts id' = none)
    (hsb : ∀ b, store.batch = some b → ∀ e ∈ b.entries, e.id ≠ id') :
    lookupAccount (Wallet.accountByID B w store qid).1.accounts id' = none := by
  have hbase := retrieveBatchIfRequired_lookup_none B w store id' hl hsb
  unfold Wallet.accountByID
  simp only []
  repeat' split
  all_goals
    first
    | exact hbase
    | (rw [lookupAccount_insert_ne _ _ _ _ hne]; exact hbase)

theorem accountByName_index (B : BLS) (w : Wallet) (store : Store) (name : String) :
    (Wallet.accountByName B w store name).1.index = w.index := by
  unfold Wallet.accountByName
  rcases hq : indexID w.index name with _ | qid
  · rfl
  · exact accountByID_index B w store qid

theorem accountByName_lookup_none (B : BLS) (w : Wallet) (store : Store)
    (name id' : String) (hix : ∀ p ∈ w.index, p.1 ≠ id')
    (hl : lookupAccount w.accounts id' = none)
    (hsb : ∀ b, store.batch = some b → ∀ e ∈ b.entries, e.id ≠ id') :
    lookupAccount (Wallet.accountByName B w store name).1.accounts id' = none := by
  unfold Wallet.accountByName
  rcases hq : indexID w.index name with _ | qid
  · exact hl
  · have hqne : qid ≠ id' := by
      unfold indexID at hq
      rcases hf : w.index.find? (fun e => e.2 == name) with _ | p <;> rw [hf] at hq
      · simp at hq
      · simp at hq
        exact hq ▸ hix p (List.mem_of_find?_eq_some hf)
    exact accountByID_lookup_none B w store qid id' hqne hl hsb

/-- Claim C3: when the persistence write fails after the (id, name)
pair was added to the in-memory index during ImportDistributedAccount,
the index addition is rolled back and the error is returned, so the new
account is observable neither in the in-memory index (which is exactly
as before the call) nor in the account cache.  The hypotheses express
that the call reaches the registration step (the nine checks pass and
the key material parses and encrypts), that the injected store fails
one of the two persistence writes, and that the fresh random account ID
is indeed fresh. -/
theorem importDistributedAccount_rollback (B : BLS) (E : Encryptor) (w : Wallet)
    (store : Store) (name : String) (privatekey : Bytes) (t : Nat)
    (vv : List Bytes) (participants : List (Nat × String)) (passphrase freshId : String)
    (pk : Bytes) (vvk : List Bytes) (crypto : Crypto)
    (h1 : ¬name = "") (h2 : startsWithUnderscore name = false)
    (h3 : privatekey.isEmpty = false) (h4 : vv.isEmpty = false)
    (h5 : participants.isEmpty = false) (h6 : participants.length / 2 < t)
    (h7 : vv.length = t) (h8 : w.unlocked = true)
    (h9 : exceptIsOk (Wallet.accountByName B w store name).2 = false)
    (hpk : B.privFromBytes privatekey = some pk)
    (hvvk : parseVVKeys B vv = some vvk)
    (henc : E.encrypt pk passphrase = some crypto)
    (hfail : store.failStoreIndex = true ∨ store.failStoreAccount = true)
    (hixf : ∀ p ∈ w.index, p.1 ≠ freshId)
    (hlf : lookupAccount w.accounts freshId = none)
    (hsb : ∀ b, store.batch = some b → ∀ e ∈ b.entries, e.id ≠ freshId) :
    (∃ e, (Wallet.importDistributedAccount B E w store name privatekey t vv participants
      passphrase freshId).2.2 = .error e) ∧
    (Wallet.importDistributedAccount B E w store name privatekey t vv participants
      passphrase freshId).1.index = w.index ∧
    lookupAccount (Wallet.importDistributedAccount B E w store name privatekey t vv
      participants passphrase freshId).1.accounts freshId = none := by
  have hw1idx : (Wallet.accountByName B w store name).1.index = w.index :=
    accountByName_index B w store name
  have hw1look :
      lookupAccount (Wallet.accountByName B w store name).1.accounts freshId = none :=
    accountByName_lookup_none B w store name freshId hixf hlf hsb
  unfold Wallet.importDistributedAccount
  rw [if_neg h1, if_neg (by simp [h2]), if_neg (by simp [h3]), if_neg (by simp [h4]),
    if_neg (by simp [h5]), if_neg (by omega), if_neg (by omega), if_neg (by simp [h8])]
  rcases hnm : Wallet.accountByName B w store name with ⟨w1, r9⟩
  rw [hnm] at h9 hw1idx hw1look
  simp only [] at hw1idx hw1look
  cases r9 with
  | ok aa => simp [exceptIsOk] at h9
  | error e9 =>
    simp only [hpk, hvvk, henc]
    have hixf1 : ∀ p ∈ w1.index, p.1 ≠ freshId := fun p hp => hixf p (hw1idx ▸ hp)
    unfold Wallet.importRegister Account.storeAccount Wallet.storeAccountsIndex
    simp only []
    by_cases hfsi : store.failStoreIndex = true
    · rw [if_pos hfsi]
      simp only []
      refine ⟨⟨"failed to store account index", rfl⟩, ?_, ?_⟩
      · show indexRemove (indexAdd w1.index freshId name) freshId name = w.index
        rw [indexRemove_indexAdd _ _ _ hixf1]
        exact hw1idx
      · exact hw1look
    · have hfsa : store.failStoreAccount = true := hfail.resolve_left hfsi
      rw [if_neg hfsi]
      simp only []
      rw [if_pos hfsa]
      simp only []
      refine ⟨⟨"failed to store account", rfl⟩, ?_, ?_⟩
      · show indexRemove (indexAdd w1.index freshId name) freshId name = w.index
        rw [indexRemove_indexAdd _ _ _ hixf1]
        exact hw1idx
      · exact hw1look

/-- A store whose StoreAccount write fails. -/
def store3f : Store := Store.mk [] none none false false false true false

def cr3 : Crypto :=
  [("pass", Json.str "pass"), ("data", Json.arr (sk1.map (fun b => Json.num (b : ℚ))))]

theorem importDistributedAccount_rollback_witness :
    (∃ e, (Wallet.importDistributedAccount toyB toyE w0 store3f "test" sk1 2 vv2 parts3
      "pass" "aid").2.2 = .error e) ∧
    (Wallet.importDistributedAccount toyB toyE w0 store3f "test" sk1 2 vv2 parts3
      "pass" "aid").1.index = w0.index ∧
    lookupAccount (Wallet.importDistributedAccount toyB toyE w0 store3f "test" sk1 2 vv2
      parts3 "pass" "aid").1.accounts "aid" = none :=
  importDistributedAccount_rollback toyB toyE w0 store3f "test" sk1 2 vv2 parts3 "pass"
    "aid" sk1 vv2 cr3 (by decide) rfl rfl rfl rfl (by decide) rfl rfl rfl rfl rfl rfl
    (Or.inr rfl) (by simp [w0]) rfl (fun b hb => by simp [store3f] at hb)

end DistributedWallet
